import Mathlib

set_option maxHeartbeats 1000000

/-! Verification development for the bridge/bus message relay.

The repository has three source files:
  - src/scripts/lib/bus.js: a minimal pub/sub Emitter keyed by topic, plus a
    module-level outbound sender slot (setSender, send, isReady);
  - a window channel transport (window.onmessage handshake creating a
    MessageChannel and posting one port to the source window);
  - bus-frame.js: mountBusBridge, the bridge controller owning one iframe and
    wiring port messages into bus emissions (connect, disconnect, destroy,
    update).

Each part is embedded shallowly below, and the theorems settle the frozen
claims about the specification. -/

namespace JS

/-- A small model of JavaScript values, sufficient for the truthiness tests
and property accesses performed by the message handlers.  Numbers are
modelled as integers (no floating point is involved in the handlers). -/
inductive JVal where
  | undef
  | jnull
  | jbool (b : Bool)
  | jnum (n : Int)
  | jstr (s : String)
  | jobj (fields : List (String × JVal))

/-- JavaScript truthiness for the modelled values: undefined, null, false,
0 and the empty string are falsy; objects are always truthy. -/
def truthy : JVal → Bool
  | .undef => false
  | .jnull => false
  | .jbool b => b
  | .jnum n => n != 0
  | .jstr s => s != ""
  | .jobj _ => true

/-- Property access: objects look up the field (first binding wins, and the
object literals built by this code have distinct keys), any other value
yields undefined.  This models both destructuring and dot access on
non-null values. -/
def getField : JVal → String → JVal
  | .jobj fs, k =>
      match fs.find? (fun p => p.1 == k) with
      | some p => p.2
      | none => .undef
  | _, _ => .undef

end JS

namespace Bus

/-! The Emitter of bus.js.  Listeners are identified by natural numbers; an
environment maps each identifier to its body, a small command list: a
listener may subscribe or unsubscribe listeners, emit on the bus, throw, or
do nothing.  This captures every behaviour the claims quantify over
(re-entrant emission, mutation of the registry during emission, and
throwing listeners); listener behaviour in the source never depends on the
event payload for these claims, so the payload is not threaded through. -/

inductive Cmd where
  | on (t : String) (i : Nat)
  | off (t : String) (i : Nat)
  | emit (t : String)
  | fault
  | nop
deriving DecidableEq

/-- The Emitter state: the Map from topic to its Set of listeners.  Both the
topic list and each listener list are kept in insertion order, exactly as a
JavaScript Map and Set iterate. -/
abbrev EmState := List (String × List Nat)

/-- Listener set of a topic (empty when the topic has no entry). -/
def getTopic : EmState → String → List Nat
  | [], _ => []
  | (u, l) :: rest, t => if u = t then l else getTopic rest t

/-- Emitter.on: create the topic entry if needed, then Set.add the listener,
which is a no-op when the listener is already present. -/
def onOp : EmState → String → Nat → EmState
  | [], t, i => [(t, [i])]
  | (u, l) :: rest, t, i =>
      if u = t then (u, if i ∈ l then l else l ++ [i]) :: rest
      else (u, l) :: onOp rest t i

/-- Emitter.off: delete the listener from the topic entry if present. -/
def offOp : EmState → String → Nat → EmState
  | [], _, _ => []
  | (u, l) :: rest, t, i =>
      if u = t then (u, l.erase i) :: rest
      else (u, l) :: offOp rest t i

/-- Result of one emission: final registry, invocation log as (depth,
listener) pairs, and the number of listener errors caught and logged by the
try/catch inside Emitter.emit. -/
structure ERes where
  st : EmState
  log : List (Nat × Nat)
  caught : Nat

/-- Result of running a listener body: additionally the `err` flag records
that the body terminated by throwing; it is exactly what the try/catch in
Emitter.emit catches. -/
structure Res where
  st : EmState
  log : List (Nat × Nat)
  caught : Nat
  err : Bool

/-- Run a listener body.  A fault throws: it aborts the remaining commands
of this body and reports the error to the caller.  Emissions are delegated
to `emitF` and never throw, matching Emitter.emit which swallows listener
errors. -/
def runCmds (emitF : String → EmState → ERes) : List Cmd → EmState → Res
  | [], st => ⟨st, [], 0, false⟩
  | Cmd.on t i :: cs, st => runCmds emitF cs (onOp st t i)
  | Cmd.off t i :: cs, st => runCmds emitF cs (offOp st t i)
  | Cmd.nop :: cs, st => runCmds emitF cs st
  | Cmd.fault :: _, st => ⟨st, [], 0, true⟩
  | Cmd.emit t :: cs, st =>
      let p := emitF t st
      let r := runCmds emitF cs p.st
      ⟨r.st, p.log ++ r.log, p.caught + r.caught, r.err⟩

/-- Invoke a snapshot of listeners in order.  Each body runs inside
try/catch: a thrown error is counted (console.error "bus listener error")
and the loop continues with the next listener. -/
def invoke (runBody : Nat → EmState → Res) (d : Nat) : List Nat → EmState → ERes
  | [], st => ⟨st, [], 0⟩
  | i :: is, st =>
      let r := runBody i st
      let rest := invoke runBody d is r.st
      ⟨rest.st, (d, i) :: r.log ++ rest.log,
        r.caught + (if r.err then 1 else 0) + rest.caught⟩

/-- Emitter.emit, fuel-indexed to bound emission nesting.  The iterated
listeners are Array.from(set): the snapshot of the topic taken when the
emission starts.  Direct invocations are logged at depth `d`; the bodies
run at depth `d + 1`, so nested emissions log strictly deeper.  Out of fuel,
an emission does nothing (fuel only truncates nesting; every theorem below
is stated for a sufficient or arbitrary fuel). -/
def emitGo (env : Nat → List Cmd) : Nat → Nat → String → EmState → ERes
  | 0, _, _, st => ⟨st, [], 0⟩
  | fuel + 1, d, t, st =>
      invoke (fun i s => runCmds (emitGo env fuel (d + 1)) (env i) s) d
        (getTopic st t) st

/-- The wrapper body produced by Emitter.once: first unsubscribe the wrapper
itself, then run the original listener body (source: `off(); fn(e);`). -/
def onceBody (t : String) (w : Nat) (fnBody : List Cmd) : List Cmd :=
  Cmd.off t w :: fnBody

/-- A sequence of top-level emissions, one per topic in the list. -/
def runTop (env : Nat → List Cmd) (fuel : Nat) (topics : List String)
    (st : EmState) : Res :=
  runCmds (emitGo env fuel 0) (topics.map Cmd.emit) st

/-- Listener identifiers appearing in a log. -/
def ids (log : List (Nat × Nat)) : List Nat := log.map Prod.snd

/-- The listeners invoked directly by the emission pass at depth `d`, in
invocation order. -/
def directs (d : Nat) (log : List (Nat × Nat)) : List Nat :=
  (log.filter (fun e => e.1 == d)).map Prod.snd

/-- Registry well-formedness: every listener set is duplicate-free, the
invariant a JavaScript Set maintains. -/
def WF (st : EmState) : Prop := ∀ t, (getTopic st t).Nodup

/-- Listener `w` is registered nowhere. -/
def Absent (w : Nat) (st : EmState) : Prop := ∀ t, w ∉ getTopic st t

/-- Listener `w` is registered at most under topic `T`. -/
def OnlyAt (w : Nat) (T : String) (st : EmState) : Prop :=
  ∀ t, t ≠ T → w ∉ getTopic st t

/-! The module-level sender slot of bus.js.  Sender functions are abstracted
as identifiers; invoking the sender `f` on `data` is recorded as the pair
`(f, data)`. -/

structure SendOptions where
  throwIfOffline : Bool

/-- isReady(): whether a sender is installed. -/
def isReady (post : Option Nat) : Bool := post.isSome

/-- setSender(fn): overwrite the slot and report the emitted
"bridge:sender" readiness flag. -/
def setSender (_old fn : Option Nat) : Option Nat × Bool := (fn, fn.isSome)

/-- send(data, options): invoke the sender if installed and return true,
otherwise return false, or throw "bus: sender not ready" when
throwIfOffline was requested. -/
def send (post : Option Nat) (data : Nat) (opts : SendOptions) :
    Except String (Bool × Option (Nat × Nat)) :=
  match post with
  | some f => .ok (true, some (f, data))
  | none =>
      if opts.throwIfOffline then .error "bus: sender not ready"
      else .ok (false, none)

end Bus

namespace Frame

/-! The bridge controller of bus-frame.js (mountBusBridge).  The closure
variables become a record: the destructured option constants `src` and
`targetOrigin` (never reassigned by the source), the iframe element
(carrying its mutable src attribute, none after destroy), the loaded flag,
the current port (ports are numbered so each MessageChannel yields the pair
p, p + 1), and the bus effects visible to the claims: the sender slot
(`post`, mirroring bus.js `_post`), the emission log, the handshake
postMessages actually sent, the count of caught-and-logged handshake
errors (console.error "bridge handshake failed"), and whether a microtask
reconnect is queued. -/

/-- Bus emissions performed by the bridge controller. -/
inductive BEv where
  | senderReady (ready : Bool)
  | bopen (origin : String)
  | bclose
deriving DecidableEq

structure BridgeState where
  src : String
  targetOrigin : Option String
  frame : Option String
  loaded : Bool
  port : Option Nat
  nextPort : Nat
  post : Bool
  events : List BEv
  posts : List (String × Nat)
  handshakeErrors : Nat
  pending : Bool
deriving DecidableEq

/-- mountBusBridge: create the iframe with the requested src and attach the
load listener.  A null or absent targetOrigin is `none` (the source treats
null and undefined alike through the nullish coalescing in connect). -/
def mount (src : String) (targetOrigin : Option String) : BridgeState :=
  { src := src, targetOrigin := targetOrigin, frame := some src,
    loaded := false, port := none, nextPort := 0, post := false,
    events := [], posts := [], handshakeErrors := 0, pending := false }

/-- bus.setSender as called by the controller: overwrite the slot and emit
"bridge:sender" with the readiness flag. -/
def setSenderB (st : BridgeState) (installed : Bool) : BridgeState :=
  { st with post := installed,
            events := st.events ++ [BEv.senderReady installed] }

/-- Characters of the host part: everything up to the next slash. -/
def hostPart : List Char → List Char
  | [] => []
  | c :: cs => if c = '/' then [] else c :: hostPart cs

/-- Characters of the origin: the scheme, the separator, and the host part;
a string without a separator is returned whole. -/
def originChars : List Char → List Char
  | ':' :: '/' :: '/' :: rest => ':' :: '/' :: '/' :: hostPart rest
  | c :: rest => c :: originChars rest
  | [] => []

/-- Origin of an absolute URL, modelling `new URL(src, location.href).origin`
for the absolute http(s) URLs this bridge is mounted with: the scheme
followed by the host part up to the next slash. -/
def urlOrigin (s : String) : String := ⟨originChars s.data⟩

/-- connect(): bail out unless the frame exists and has loaded; compute the
target origin from the captured constants (explicit override, else derived
from the mount-time src); close the previous port (errors swallowed); open
a fresh MessageChannel and keep port1; install the inbound demultiplexer
(modelled separately as `portOnMessage`); post the handshake carrying port2
to the frame window, scoped to the computed origin, where a throwing
postMessage is caught and logged; then install the bus sender and emit
"bridge:open".  The two environment flags say whether the frame has a
content window (optional chaining skips the post without it) and whether
the postMessage call throws. -/
def connect (hasWindow postThrows : Bool) (st : BridgeState) : BridgeState :=
  match st.frame with
  | none => st
  | some _ =>
    if st.loaded then
      let origin := st.targetOrigin.getD (urlOrigin st.src)
      let p := st.nextPort
      let st1 := { st with port := some p, nextPort := p + 2 }
      let st2 :=
        if hasWindow then
          if postThrows then
            { st1 with handshakeErrors := st1.handshakeErrors + 1 }
          else
            { st1 with posts := st1.posts ++ [(origin, p + 1)] }
        else st1
      let st3 := setSenderB st2 true
      { st3 with events := st3.events ++ [BEv.bopen origin] }
    else st

/-- The load listener: set the loaded flag, then connect. -/
def onIframeLoad (hasWindow postThrows : Bool) (st : BridgeState) :
    BridgeState :=
  connect hasWindow postThrows { st with loaded := true }

/-- disconnect(): clear the bus sender (which emits the not-ready
notification), close and null the port (close errors swallowed), and emit
"bridge:close". -/
def disconnect (st : BridgeState) : BridgeState :=
  let st1 := setSenderB st false
  let st2 := { st1 with port := none }
  { st2 with events := st2.events ++ [BEv.bclose] }

/-- destroy(): disconnect, then if the element is still present detach the
load listener, remove it from the document and null the reference. -/
def destroy (st : BridgeState) : BridgeState :=
  let st1 := disconnect st
  match st1.frame with
  | some _ => { st1 with frame := none }
  | none => st1

/-- The argument of update(): `src` is `some s` when next.src is the string
`s` (absent or non-string is `none`); `targetOrigin` is `some v` when the
property was provided (where `v` itself is an Option because null may be
passed) and `none` when it was undefined. -/
structure UpdateNext where
  src : Option String
  targetOrigin : Option (Option String)

/-- update(next): needsSrcChange holds when next.src is a string different
from the captured src constant; newOrigin is computed exactly as in the
source and, exactly as in the source, never used afterwards.  Then
disconnect; on a src change reassign the frame src and reset the loaded
flag, with the cache-busting reassignment guarded by next.src being equal
to the captured src (inside the needsSrcChange branch, as in the source);
without a src change queue the reconnect microtask.  `now` stands for
Date.now(). -/
def update (now : Nat) (next : UpdateNext) (st : BridgeState) : BridgeState :=
  let needsSrcChange : Bool :=
    match next.src with
    | some s => s ≠ st.src
    | none => false
  let _newOrigin :=
    match next.targetOrigin with
    | some v => v
    | none => st.targetOrigin
  let st1 := disconnect st
  let st2 :=
    if needsSrcChange && st1.frame.isSome then
      let ns := next.src.getD ""
      let st15 := { st1 with frame := some ns, loaded := false }
      if next.src = some st15.src then
        { st15 with frame := some (ns ++
            (if ns.data.contains '?' then "&" else "?") ++ "_ts=" ++ toString now) }
      else st15
    else st1
  if !needsSrcChange then { st2 with pending := true } else st2

/-- Run the queued microtask: the deferred `connect()` scheduled by update
when the src did not change. -/
def runMicrotasks (hasWindow postThrows : Bool) (st : BridgeState) :
    BridgeState :=
  if st.pending then
    connect hasWindow postThrows { st with pending := false }
  else st

/-- isReady() as observed through the controller model: bus.js reports
whether the sender slot is occupied. -/
def isReadyB (st : BridgeState) : Bool := st.post

/-- Number of "bridge:close" emissions in a log. -/
def closeCount (evs : List BEv) : Nat :=
  (evs.filter (fun e => e = BEv.bclose)).length

/-- The origin carried by the latest "bridge:open" emission, if any. -/
def lastOpen (evs : List BEv) : Option String :=
  evs.foldl (fun acc e => match e with | BEv.bopen o => some o | _ => acc) none

/-- The inbound port message handler installed by connect(): replace falsy
data by an empty object, destructure topic and payload, and demultiplex: a
truthy topic emits the topic itself and the "bridge:message" envelope,
anything else emits only the generic "bridge:message" with the raw data. -/
inductive PEvent where
  | topicEmit (topic : JS.JVal) (payload : JS.JVal)
  | bridgeMessage (data : JS.JVal)

/-- The `e.data || \x7b\x7d` normalisation at the top of the handler. -/
def normData (edata : JS.JVal) : JS.JVal :=
  if JS.truthy edata then edata else JS.JVal.jobj []

def portOnMessage (edata : JS.JVal) : List PEvent :=
  let data := normData edata
  let topic := JS.getField data "topic"
  let payload := JS.getField data "payload"
  if JS.truthy topic then
    [PEvent.topicEmit topic payload,
     PEvent.bridgeMessage (JS.JVal.jobj [("topic", topic), ("payload", payload)])]
  else
    [PEvent.bridgeMessage data]

end Frame

namespace Chan

/-! The window channel transport: a module-level connected flag, a retained
port, and the handshake triggered by window messages.  Windows are
identified by numbers; the MessageChannel port pair is modelled as ports 0
and 1 of this transport instance. -/

structure TState where
  connected : Bool
  port1 : Option Nat
  posted : List (Nat × JS.JVal × List Nat)

/-- connect(win): only when not yet connected and the window is available,
create the channel, retain port1, and post the handshake message (the
string "init") to the window with the transferable port2. -/
def tconnect (st : TState) (win : Option Nat) : TState :=
  if st.connected then st
  else
    match win with
    | some w =>
        { connected := true, port1 := some 0,
          posted := st.posted ++ [(w, JS.JVal.jstr "init", [1])] }
    | none => st

/-- The strict comparison `ev.data.type === "init"`. -/
def isInitType (v : JS.JVal) : Bool :=
  match JS.getField v "type" with
  | JS.JVal.jstr s => s == "init"
  | _ => false

/-- windowReceive(ev): reading `.type` of a null or undefined payload throws
a TypeError; otherwise the handshake runs exactly when the type property is
the string "init", with the message source window and with no origin
check. -/
def windowReceive (st : TState) (evdata : JS.JVal) (evsource : Option Nat) :
    Except String TState :=
  match evdata with
  | JS.JVal.undef => .error "TypeError"
  | JS.JVal.jnull => .error "TypeError"
  | _ => .ok (if isInitType evdata then tconnect st evsource else st)

end Chan

/-! Concrete states used by the counterexamples and evaluations below. -/

/-- A bridge mounted on an absolute https URL with no explicit target
origin, after its load event and a successful first connect. -/
def stConn : Frame.BridgeState :=
  Frame.onIframeLoad true false (Frame.mount "https://example.test/frame.html" none)

/-- The bridge of stConn after update with only a new target origin and the
subsequent microtask reconnect. -/
def stUpdOrigin : Frame.BridgeState :=
  Frame.runMicrotasks true false
    (Frame.update 0 ⟨none, some (some "https://other.example")⟩ stConn)

/-- The bridge of stConn after update with a src equal to the current one. -/
def stUpdSame : Frame.BridgeState :=
  Frame.update 42 ⟨some "https://example.test/frame.html", none⟩ stConn

/-- C1, counterexample.  Mount the bridge on an absolute URL, let the frame
load, and let the handshake postMessage throw: the error is counted as
caught-and-logged, yet the controller proceeds: the sender is installed, so
isReady() is true, contradicting the claim that no sender is installed and
isReady() stays false. -/
theorem connect_postthrow_installs_sender :
    Frame.isReadyB (Frame.onIframeLoad true true
      (Frame.mount "https://example.test/frame.html" none)) = true ∧
    (Frame.onIframeLoad true true
      (Frame.mount "https://example.test/frame.html" none)).handshakeErrors = 1 ∧
    (Frame.onIframeLoad true true
      (Frame.mount "https://example.test/frame.html" none)).posts = [] := by
  refine ⟨rfl, rfl, rfl⟩

/-- C1, amended.  When the handshake postMessage throws inside connect() on
a loaded frame, the error is caught and logged (the handshake error count
increases and no handshake message is recorded), but connect() then
proceeds: the sender is installed, isReady() becomes true, and
"bridge:sender" ready and "bridge:open" are still emitted. -/
theorem connect_handshake_fault_caught (st : Frame.BridgeState)
    (hf : st.frame.isSome = true) (hl : st.loaded = true) :
    (Frame.connect true true st).handshakeErrors = st.handshakeErrors + 1 ∧
    (Frame.connect true true st).posts = st.posts ∧
    Frame.isReadyB (Frame.connect true true st) = true ∧
    (Frame.connect true true st).events = st.events ++
      [Frame.BEv.senderReady true,
       Frame.BEv.bopen (st.targetOrigin.getD (Frame.urlOrigin st.src))] := by
  cases hfr : st.frame with
  | none => rw [hfr] at hf; simp at hf
  | some f =>
      simp [Frame.connect, hfr, hl, Frame.setSenderB, Frame.isReadyB]

/-- Witness for the amended C1 theorem at a concrete loaded bridge. -/
theorem connect_handshake_fault_caught_witness :
    Frame.isReadyB (Frame.connect true true
      { Frame.mount "https://example.test/frame.html" none with loaded := true })
      = true ∧
    (Frame.connect true true
      { Frame.mount "https://example.test/frame.html" none with
          loaded := true }).handshakeErrors = 1 :=
  ⟨(connect_handshake_fault_caught
      { Frame.mount "https://example.test/frame.html" none with loaded := true }
      rfl rfl).2.2.1,
   (connect_handshake_fault_caught
      { Frame.mount "https://example.test/frame.html" none with loaded := true }
      rfl rfl).1⟩

/-- C4, counterexample.  On a connected bridge the first destroy() emits one
"bridge:close", and a second destroy() emits another: disconnect runs
unconditionally inside destroy, so the close notification is duplicated,
contradicting the claim that the second call adds no duplicate. -/
theorem destroy_twice_duplicate_close :
    Frame.closeCount (Frame.destroy stConn).events = 1 ∧
    Frame.closeCount (Frame.destroy (Frame.destroy stConn)).events = 2 :=
  ⟨rfl, rfl⟩

/-- C4, amended.  A second destroy() on any bridge state produces no error
(every dereference on the null element is guarded, so the model is total
and the element stays null), but it emits one further "bridge:sender" not
ready notification and one further "bridge:close", because destroy calls
disconnect unconditionally. -/
theorem destroy_second_call_behaviour (st : Frame.BridgeState) :
    (Frame.destroy (Frame.destroy st)).frame = none ∧
    (Frame.destroy (Frame.destroy st)).events = (Frame.destroy st).events ++
      [Frame.BEv.senderReady false, Frame.BEv.bclose] := by
  cases st with
  | mk src tgt fr loaded port nextPort post events posts he pend =>
      cases fr <;>
        simp [Frame.destroy, Frame.disconnect, Frame.setSenderB]

/-- C5, code bug evaluation.  Mount on "https://example.test/frame.html"
with no explicit target origin, load, then update with only a new target
origin "https://other.example" and run the queued microtask: the reconnect
posts the handshake and emits "bridge:open" with the origin derived from
the original src, not with the updated origin, because the source computes
newOrigin in update() and never uses it, and connect() reads the captured
constants. -/
theorem update_target_origin_ignored :
    Frame.lastOpen stUpdOrigin.events = some "https://example.test" ∧
    stUpdOrigin.posts.map Prod.fst =
      ["https://example.test", "https://example.test"] ∧
    "https://example.test" ≠ "https://other.example" := by
  refine ⟨rfl, rfl, by decide⟩

/-- C6, code bug evaluation.  Updating with a src equal to the current one
is classified by the source as no src change (needsSrcChange requires
next.src different from src), so the frame source keeps its old value with
no cache-busting parameter, the loaded flag is not reset, and a microtask
reconnect is queued instead: the cache-busting branch of the source is
unreachable, contradicting its own comment and the claim. -/
theorem update_same_src_no_reload :
    stUpdSame.frame = some "https://example.test/frame.html" ∧
    stUpdSame.loaded = true ∧
    stUpdSame.pending = true :=
  ⟨rfl, rfl, rfl⟩

/-- C7.  send returns true and invokes the installed sender with the data
exactly when a sender is installed; with no sender it returns false, except
that it throws "bus: sender not ready" when throwIfOffline is passed; and
after setSender(null) the slot is empty, so send behaves as in the no
sender case. -/
theorem send_ready_iff (post : Option Nat) (data : Nat)
    (opts : Bus.SendOptions) :
    (Bus.isReady post = true →
      ∃ f, post = some f ∧
        Bus.send post data opts = .ok (true, some (f, data))) ∧
    (Bus.isReady post = false → opts.throwIfOffline = false →
      Bus.send post data opts = .ok (false, none)) ∧
    (Bus.isReady post = false → opts.throwIfOffline = true →
      Bus.send post data opts = .error "bus: sender not ready") ∧
    (∀ d2 o2, Bus.send (Bus.setSender post none).1 d2 o2 =
      if o2.throwIfOffline then .error "bus: sender not ready"
      else .ok (false, none)) := by
  obtain ⟨b⟩ := opts
  cases post <;> cases b <;>
    simp [Bus.isReady, Bus.send, Bus.setSender]

/-- Witness for C7 at concrete inputs: an installed sender 7 transmits data
3; with no sender and throwIfOffline the offline error is thrown. -/
theorem send_ready_iff_witness :
    Bus.send none 3 ⟨true⟩ = .error "bus: sender not ready" :=
  ((send_ready_iff none 3 ⟨true⟩).2.2.1) rfl rfl

/-- C9, counterexample.  A window message whose payload is the string
"init" does not trigger the handshake: the handler compares ev.data.type
with "init", and a string payload has no type property, so the transport
state is unchanged: no channel is created, no port retained, nothing
posted. -/
theorem window_init_string_no_handshake :
    Chan.windowReceive ⟨false, none, []⟩ (JS.JVal.jstr "init") (some 5) =
      .ok ⟨false, none, []⟩ :=
  rfl

/-- C9, amended.  A window message whose data has a type property equal to
"init", received with any origin accepted, triggers the handshake when the
transport is not yet connected and the source window is present: a channel
is created, port 0 is retained, and the other end (port 1) is posted to
the message source window. -/
theorem window_init_type_handshake (st : Chan.TState) (evdata : JS.JVal)
    (w : Nat) (hconn : st.connected = false)
    (hty : Chan.isInitType evdata = true) :
    Chan.windowReceive st evdata (some w) =
      .ok ⟨true, some 0, st.posted ++ [(w, JS.JVal.jstr "init", [1])]⟩ := by
  cases evdata <;> simp_all [Chan.isInitType, JS.getField, Chan.windowReceive,
    Chan.tconnect]

/-- Witness for the amended C9 theorem at a concrete init message. -/
theorem window_init_type_handshake_witness :
    Chan.windowReceive ⟨false, none, []⟩
      (JS.JVal.jobj [("type", JS.JVal.jstr "init")]) (some 5) =
      .ok ⟨true, some 0, [(5, JS.JVal.jstr "init", [1])]⟩ :=
  window_init_type_handshake ⟨false, none, []⟩ _ 5 rfl rfl

/-- C10.  An inbound port message whose data, after falsy data is replaced
by an empty object, lacks a truthy topic property emits only the generic
"bridge:message" event carrying that data, and never a specific topic
emission. -/
theorem port_demux_no_topic (edata : JS.JVal)
    (h : JS.truthy (JS.getField (Frame.normData edata) "topic") = false) :
    Frame.portOnMessage edata =
      [Frame.PEvent.bridgeMessage (Frame.normData edata)] ∧
    ∀ t p, Frame.PEvent.topicEmit t p ∉ Frame.portOnMessage edata := by
  have he : Frame.portOnMessage edata =
      [Frame.PEvent.bridgeMessage (Frame.normData edata)] := by
    unfold Frame.portOnMessage
    simp [h]
  exact ⟨he, by intro t p hm; rw [he] at hm; simp at hm⟩

/-- Witness for C10 at an envelope whose topic is the empty string. -/
theorem port_demux_no_topic_witness :
    Frame.portOnMessage (JS.JVal.jobj [("topic", JS.JVal.jstr "")]) =
      [Frame.PEvent.bridgeMessage (JS.JVal.jobj [("topic", JS.JVal.jstr "")])] :=
  (port_demux_no_topic (JS.JVal.jobj [("topic", JS.JVal.jstr "")]) rfl).1

namespace Bus

/-! Registry lemmas: how getTopic changes under the two mutation
primitives, and preservation of well-formedness and of the placement
predicates. -/

theorem getTopic_onOp (st : EmState) (t : String) (i : Nat) (u : String) :
    getTopic (onOp st t i) u =
      if u = t then
        (if i ∈ getTopic st t then getTopic st t else getTopic st t ++ [i])
      else getTopic st u := by
  induction st with
  | nil =>
      by_cases h : u = t
      · subst h; simp [onOp, getTopic]
      · simp [onOp, getTopic, h, Ne.symm h]
  | cons p rest ih =>
      obtain ⟨v, l⟩ := p
      by_cases hv : v = t
      · subst hv
        by_cases h : u = v
        · subst h; simp [onOp, getTopic]
        · simp [onOp, getTopic, h, Ne.symm h]
      · by_cases h : u = v
        · subst h
          simp [onOp, getTopic, hv]
        · simp [onOp, getTopic, hv, Ne.symm h, ih]

theorem getTopic_offOp (st : EmState) (t : String) (i : Nat) (u : String) :
    getTopic (offOp st t i) u =
      if u = t then (getTopic st t).erase i else getTopic st u := by
  induction st with
  | nil =>
      by_cases h : u = t
      · subst h; simp [offOp, getTopic]
      · simp [offOp, getTopic, h]
  | cons p rest ih =>
      obtain ⟨v, l⟩ := p
      by_cases hv : v = t
      · subst hv
        by_cases h : u = v
        · subst h; simp [offOp, getTopic]
        · simp [offOp, getTopic, h, Ne.symm h]
      · by_cases h : u = v
        · subst h
          simp [offOp, getTopic, hv]
        · simp [offOp, getTopic, hv, Ne.symm h, ih]

theorem onOp_WF {st : EmState} (hwf : WF st) (t : String) (i : Nat) :
    WF (onOp st t i) := by
  intro u
  rw [getTopic_onOp]
  by_cases h : u = t
  · by_cases hm : i ∈ getTopic st t
    · simpa [h, hm] using hwf t
    · simpa [h, hm] using List.Nodup.append (hwf t) (by simp)
        (by simpa [List.disjoint_singleton] using hm)
  · simpa [h] using hwf u

theorem offOp_WF {st : EmState} (hwf : WF st) (t : String) (i : Nat) :
    WF (offOp st t i) := by
  intro u
  rw [getTopic_offOp]
  by_cases h : u = t
  · simpa [h] using List.Nodup.erase i (hwf t)
  · simpa [h] using hwf u

theorem onOp_absent {w : Nat} {st : EmState} (ha : Absent w st) {i : Nat}
    (hi : i ≠ w) (t : String) : Absent w (onOp st t i) := by
  intro u
  rw [getTopic_onOp]
  by_cases h : u = t
  · by_cases hm : i ∈ getTopic st t
    · simpa [h, hm] using ha t
    · simp [h, hm, Ne.symm hi, ha t]
  · simpa [h] using ha u

theorem offOp_absent {w : Nat} {st : EmState} (ha : Absent w st) (t : String)
    (i : Nat) : Absent w (offOp st t i) := by
  intro u
  rw [getTopic_offOp]
  by_cases h : u = t
  · simp only [h, if_pos]
    intro hw
    exact ha t (List.mem_of_mem_erase hw)
  · simpa [h] using ha u

theorem onOp_onlyAt {w : Nat} {T : String} {st : EmState}
    (ho : OnlyAt w T st) {i : Nat} (hi : i ≠ w) (t : String) :
    OnlyAt w T (onOp st t i) := by
  intro u hu
  rw [getTopic_onOp]
  by_cases h : u = t
  · by_cases hm : i ∈ getTopic st t
    · simpa [h, hm] using ho t (h ▸ hu)
    · simp [h, hm, Ne.symm hi, ho t (h ▸ hu)]
  · simpa [h] using ho u hu

theorem offOp_onlyAt {w : Nat} {T : String} {st : EmState}
    (ho : OnlyAt w T st) (t : String) (i : Nat) :
    OnlyAt w T (offOp st t i) := by
  intro u hu
  rw [getTopic_offOp]
  by_cases h : u = t
  · simp only [h, if_pos]
    intro hw
    exact ho t (h ▸ hu) (List.mem_of_mem_erase hw)
  · simpa [h] using ho u hu

theorem absent_of_onlyAt {w : Nat} {T : String} {st : EmState}
    (ho : OnlyAt w T st) (hT : w ∉ getTopic st T) : Absent w st := by
  intro t
  by_cases h : t = T
  · exact h ▸ hT
  · exact ho t h

theorem offOp_self_absent {w : Nat} {T : String} {st : EmState} (hwf : WF st)
    (ho : OnlyAt w T st) : Absent w (offOp st T w) := by
  intro u
  rw [getTopic_offOp]
  by_cases h : u = T
  · simp only [h, if_pos]
    intro hw
    exact ((List.Nodup.mem_erase_iff (hwf T)).mp hw).1 rfl
  · simpa [h] using ho u h

/-! Log depth lemmas: every entry logged by an emission at depth d sits at
depth d or deeper, and the entries at depth d itself are exactly the
snapshot taken when the emission started. -/

theorem runCmds_depth (emitF : String → EmState → ERes) (d0 : Nat)
    (hE : ∀ t st, ∀ e ∈ (emitF t st).log, d0 ≤ e.1) :
    ∀ (cmds : List Cmd) (st : EmState),
      ∀ e ∈ (runCmds emitF cmds st).log, d0 ≤ e.1 := by
  intro cmds
  induction cmds with
  | nil => intro st e he; simp [runCmds] at he
  | cons c cs ih =>
      intro st e he
      rcases c with ⟨t2, i2⟩ | ⟨t2, i2⟩ | t2 | _ | _
      · exact ih _ e he
      · exact ih _ e he
      · simp only [runCmds] at he
        rcases List.mem_append.mp he with he | he
        · exact hE t2 st e he
        · exact ih _ e he
      · simp [runCmds] at he
      · exact ih _ e he

theorem invoke_depth (runBody : Nat → EmState → Res) (d : Nat)
    (hB : ∀ i st, ∀ e ∈ (runBody i st).log, d + 1 ≤ e.1) :
    ∀ (is : List Nat) (st : EmState),
      ∀ e ∈ (invoke runBody d is st).log, d ≤ e.1 := by
  intro is
  induction is with
  | nil => intro st e he; simp [invoke] at he
  | cons i is ih =>
      intro st e he
      simp only [invoke] at he
      rcases List.mem_cons.mp he with he | he
      · simp [he]
      · rcases List.mem_append.mp he with he | he
        · exact Nat.le_of_succ_le (hB i st e he)
        · exact ih _ e he

theorem emitGo_depth (env : Nat → List Cmd) :
    ∀ (fuel d : Nat) (t : String) (st : EmState),
      ∀ e ∈ (emitGo env fuel d t st).log, d ≤ e.1 := by
  intro fuel
  induction fuel with
  | zero => intro d t st e he; simp [emitGo] at he
  | succ fuel ih =>
      intro d t st e he
      rw [emitGo] at he
      exact invoke_depth _ d
        (fun i s => runCmds_depth (emitGo env fuel (d + 1)) (d + 1)
          (fun t2 s2 => ih (d + 1) t2 s2) (env i) s)
        _ st e he

theorem invoke_cons (runBody : Nat → EmState → Res) (d i : Nat)
    (is : List Nat) (st : EmState) :
    invoke runBody d (i :: is) st =
      ⟨(invoke runBody d is (runBody i st).st).st,
       (d, i) :: (runBody i st).log ++
         (invoke runBody d is (runBody i st).st).log,
       (runBody i st).caught + (if (runBody i st).err then 1 else 0) +
         (invoke runBody d is (runBody i st).st).caught⟩ := rfl

theorem invoke_directs (runBody : Nat → EmState → Res) (d : Nat)
    (hB : ∀ i st, ∀ e ∈ (runBody i st).log, e.1 ≠ d) :
    ∀ (is : List Nat) (st : EmState),
      directs d (invoke runBody d is st).log = is := by
  intro is
  induction is with
  | nil => intro st; simp [invoke, directs]
  | cons i is ih =>
      intro st
      have hbody : (runBody i st).log.filter (fun e => e.1 == d) = [] := by
        rw [List.filter_eq_nil_iff]
        intro e he
        simpa using hB i st e he
      have hih := ih (runBody i st).st
      simp only [directs] at hih ⊢
      rw [invoke_cons]
      simp [List.filter_cons, List.filter_append, hbody, hih]

/-- The direct invocations of an emission with nonzero fuel are exactly the
snapshot of the topic taken when the emission starts, in order. -/
theorem emitGo_directs (env : Nat → List Cmd) (fuel d : Nat) (t : String)
    (st : EmState) :
    directs d (emitGo env (fuel + 1) d t st).log = getTopic st t := by
  rw [emitGo]
  exact invoke_directs _ d
    (fun i s e he => by
      have h1 := runCmds_depth (emitGo env fuel (d + 1)) (d + 1)
        (fun t2 s2 => emitGo_depth env fuel (d + 1) t2 s2) (env i) s e he
      omega)
    _ st

/-! Fault propagation: a body containing a throw always reports the error,
and the emission loop catches it, counts it, and keeps going. -/

theorem runCmds_fault_err (emitF : String → EmState → ERes) :
    ∀ (cmds : List Cmd) (st : EmState), Cmd.fault ∈ cmds →
      (runCmds emitF cmds st).err = true := by
  intro cmds
  induction cmds with
  | nil => intro st h; simp at h
  | cons c cs ih =>
      intro st h
      rcases c with ⟨t2, i2⟩ | ⟨t2, i2⟩ | t2 | _ | _
      · rcases List.mem_cons.mp h with h | h
        · exact absurd h (by simp)
        · exact ih _ h
      · rcases List.mem_cons.mp h with h | h
        · exact absurd h (by simp)
        · exact ih _ h
      · rcases List.mem_cons.mp h with h | h
        · exact absurd h (by simp)
        · simpa [runCmds] using ih _ h
      · simp [runCmds]
      · rcases List.mem_cons.mp h with h | h
        · exact absurd h (by simp)
        · exact ih _ h

theorem invoke_caught_pos (runBody : Nat → EmState → Res) (d : Nat) (j : Nat)
    (hj : ∀ s, (runBody j s).err = true) :
    ∀ (is : List Nat) (st : EmState), j ∈ is →
      1 ≤ (invoke runBody d is st).caught := by
  intro is
  induction is with
  | nil => intro st h; simp at h
  | cons i is ih =>
      intro st h
      simp only [invoke]
      rcases List.mem_cons.mp h with h | h
      · subst h
        rw [hj st]
        simp only [if_true]
        omega
      · have h1 := ih (runBody i st).st h
        omega

/-! Generic preservation lemmas for the emission semantics: a state
predicate P is carried through runs provided each subscription command
registers an allowed listener (okOn), each emission targets an allowed
topic (okT), and every directly invocable listener satisfies G; the log of
such a run only ever names G-listeners. -/

/-- Per-command side conditions used by the preservation lemmas. -/
def cmdOK (okOn : String → Nat → Prop) (okT : String → Prop) : Cmd → Prop
  | Cmd.on t i => okOn t i
  | Cmd.off _ _ => True
  | Cmd.emit t => okT t
  | Cmd.fault => True
  | Cmd.nop => True

theorem cmdOK_of_cmds (w : Nat) (okT : String → Prop) (cmds : List Cmd)
    (hon : ∀ t2, Cmd.on t2 w ∉ cmds)
    (hem : ∀ t2, ¬ okT t2 → Cmd.emit t2 ∉ cmds) :
    ∀ c ∈ cmds, cmdOK (fun _ i => i ≠ w) okT c := by
  intro c hc
  rcases c with ⟨t2, i2⟩ | ⟨t2, i2⟩ | t2 | _ | _
  · intro he
    subst he
    exact hon t2 hc
  · trivial
  · by_contra hno
    exact hem t2 hno hc
  · trivial
  · trivial

theorem runCmds_emit (emitF : String → EmState → ERes) (t : String)
    (cs : List Cmd) (st : EmState) :
    runCmds emitF (Cmd.emit t :: cs) st =
      ⟨(runCmds emitF cs (emitF t st).st).st,
       (emitF t st).log ++ (runCmds emitF cs (emitF t st).st).log,
       (emitF t st).caught + (runCmds emitF cs (emitF t st).st).caught,
       (runCmds emitF cs (emitF t st).st).err⟩ := rfl

theorem runCmds_inv (emitF : String → EmState → ERes) (P : EmState → Prop)
    (G : Nat → Prop) (okOn : String → Nat → Prop) (okT : String → Prop)
    (hon : ∀ t i st, okOn t i → P st → P (onOp st t i))
    (hoff : ∀ t i st, P st → P (offOp st t i))
    (hE : ∀ t st, okT t → P st →
      P (emitF t st).st ∧ ∀ e ∈ (emitF t st).log, G e.2) :
    ∀ (cmds : List Cmd) (st : EmState), (∀ c ∈ cmds, cmdOK okOn okT c) →
      P st →
      P (runCmds emitF cmds st).st ∧
      ∀ e ∈ (runCmds emitF cmds st).log, G e.2 := by
  intro cmds
  induction cmds with
  | nil => intro st hc hP; exact ⟨hP, by simp [runCmds]⟩
  | cons c cs ih =>
      intro st hc hP
      have hcs : ∀ c2 ∈ cs, cmdOK okOn okT c2 :=
        fun c2 h2 => hc c2 (List.mem_cons_of_mem c h2)
      rcases c with ⟨t2, i2⟩ | ⟨t2, i2⟩ | t2 | _ | _
      · exact ih _ hcs (hon t2 i2 st (hc (Cmd.on t2 i2) (by simp)) hP)
      · exact ih _ hcs (hoff t2 i2 st hP)
      · have hEt := hE t2 st (hc (Cmd.emit t2) (by simp)) hP
        have hr := ih _ hcs hEt.1
        rw [runCmds_emit]
        refine ⟨hr.1, ?_⟩
        intro e he
        rcases List.mem_append.mp he with he | he
        · exact hEt.2 e he
        · exact hr.2 e he
      · exact ⟨hP, by simp [runCmds]⟩
      · exact ih _ hcs hP

theorem invoke_inv (runBody : Nat → EmState → Res) (P : EmState → Prop)
    (G : Nat → Prop) (d : Nat)
    (hB : ∀ i st, G i → P st →
      P (runBody i st).st ∧ ∀ e ∈ (runBody i st).log, G e.2) :
    ∀ (is : List Nat) (st : EmState), (∀ i ∈ is, G i) → P st →
      P (invoke runBody d is st).st ∧
      ∀ e ∈ (invoke runBody d is st).log, G e.2 := by
  intro is
  induction is with
  | nil => intro st hg hP; exact ⟨hP, by simp [invoke]⟩
  | cons i is ih =>
      intro st hg hP
      have hgi := hg i (by simp)
      have hb := hB i st hgi hP
      have hr := ih (runBody i st).st (fun j hj => hg j (by simp [hj])) hb.1
      rw [invoke_cons]
      refine ⟨hr.1, ?_⟩
      intro e he
      rcases List.mem_cons.mp he with he | he
      · simpa [he] using hgi
      · rcases List.mem_append.mp he with he | he
        · exact hb.2 e he
        · exact hr.2 e he

theorem emitGo_inv (env : Nat → List Cmd) (P : EmState → Prop)
    (G : Nat → Prop) (okOn : String → Nat → Prop) (okT : String → Prop)
    (hon : ∀ t i st, okOn t i → P st → P (onOp st t i))
    (hoff : ∀ t i st, P st → P (offOp st t i))
    (hsnap : ∀ t st, okT t → P st → ∀ i ∈ getTopic st t, G i)
    (hbody : ∀ i, G i → ∀ c ∈ env i, cmdOK okOn okT c) :
    ∀ (fuel d : Nat) (t : String) (st : EmState), okT t → P st →
      P (emitGo env fuel d t st).st ∧
      ∀ e ∈ (emitGo env fuel d t st).log, G e.2 := by
  intro fuel
  induction fuel with
  | zero => intro d t st ht hP; exact ⟨hP, by simp [emitGo]⟩
  | succ fuel ih =>
      intro d t st ht hP
      rw [emitGo]
      exact invoke_inv _ P G d
        (fun i s hgi hPs =>
          runCmds_inv (emitGo env fuel (d + 1)) P G okOn okT hon hoff
            (fun t2 s2 ht2 hP2 => ih (d + 1) t2 s2 ht2 hP2) (env i) s
            (hbody i hgi) hPs)
        (getTopic st t) st (hsnap t st ht hP) hP

/-! Instances of the preservation lemmas for the once-listener argument:
runs from a registry where w is absent never invoke w (provided no body
subscribes w), and runs that never emit on topic T keep w confined to T. -/

theorem emitGo_absent_inv (env : Nat → List Cmd) (w : Nat)
    (hfresh : ∀ i t2, Cmd.on t2 w ∉ env i) (fuel d : Nat) (t : String)
    (st : EmState) (hP : WF st ∧ Absent w st) :
    (WF (emitGo env fuel d t st).st ∧ Absent w (emitGo env fuel d t st).st) ∧
    ∀ e ∈ (emitGo env fuel d t st).log, e.2 ≠ w :=
  emitGo_inv env (fun s => WF s ∧ Absent w s) (fun j => j ≠ w)
    (fun _ j => j ≠ w) (fun _ => True)
    (fun t2 j _ hne hP3 => ⟨onOp_WF hP3.1 t2 j, onOp_absent hP3.2 hne t2⟩)
    (fun t2 j _ hP3 => ⟨offOp_WF hP3.1 t2 j, offOp_absent hP3.2 t2 j⟩)
    (fun t2 _ _ hP3 _ hj hje => hP3.2 t2 (hje ▸ hj))
    (fun i _ => cmdOK_of_cmds w _ (env i) (hfresh i)
      (fun _ hn => absurd trivial hn))
    fuel d t st trivial hP

theorem runCmds_absent_inv (env : Nat → List Cmd) (w : Nat)
    (hfresh : ∀ i t2, Cmd.on t2 w ∉ env i) (fuel dd : Nat)
    (cmds : List Cmd) (st : EmState)
    (hcmds : ∀ t2, Cmd.on t2 w ∉ cmds) (hP : WF st ∧ Absent w st) :
    (WF (runCmds (emitGo env fuel dd) cmds st).st ∧
     Absent w (runCmds (emitGo env fuel dd) cmds st).st) ∧
    ∀ e ∈ (runCmds (emitGo env fuel dd) cmds st).log, e.2 ≠ w :=
  runCmds_inv (emitGo env fuel dd) (fun s => WF s ∧ Absent w s)
    (fun j => j ≠ w) (fun _ j => j ≠ w) (fun _ => True)
    (fun t2 j _ hne hP3 => ⟨onOp_WF hP3.1 t2 j, onOp_absent hP3.2 hne t2⟩)
    (fun t2 j _ hP3 => ⟨offOp_WF hP3.1 t2 j, offOp_absent hP3.2 t2 j⟩)
    (fun t2 s3 _ hP3 => emitGo_absent_inv env w hfresh fuel dd t2 s3 hP3)
    cmds st
    (cmdOK_of_cmds w _ cmds hcmds (fun _ hn => absurd trivial hn)) hP

theorem emitGo_onlyAt_inv (env : Nat → List Cmd) (w : Nat) (T : String)
    (hfresh : ∀ i t2, Cmd.on t2 w ∉ env i)
    (hnoemit : ∀ i, i ≠ w → Cmd.emit T ∉ env i) (fuel d : Nat) (t : String)
    (st : EmState) (ht : t ≠ T) (hP : WF st ∧ OnlyAt w T st) :
    (WF (emitGo env fuel d t st).st ∧
     OnlyAt w T (emitGo env fuel d t st).st) ∧
    ∀ e ∈ (emitGo env fuel d t st).log, e.2 ≠ w :=
  emitGo_inv env (fun s => WF s ∧ OnlyAt w T s) (fun j => j ≠ w)
    (fun _ j => j ≠ w) (fun t2 => t2 ≠ T)
    (fun t2 j s3 hne hP3 => ⟨onOp_WF hP3.1 t2 j, onOp_onlyAt hP3.2 hne t2⟩)
    (fun t2 j s3 hP3 => ⟨offOp_WF hP3.1 t2 j, offOp_onlyAt hP3.2 t2 j⟩)
    (fun t2 s3 ht2 hP3 j hj hje => hP3.2 t2 ht2 (hje ▸ hj))
    (fun i hgi => cmdOK_of_cmds w _ (env i) (hfresh i)
      (fun t2 hn => by rw [not_ne_iff.mp hn]; exact hnoemit i hgi))
    fuel d t st ht hP

theorem body_pres_onlyAt (env : Nat → List Cmd) (w : Nat) (T : String)
    (hfresh : ∀ i t2, Cmd.on t2 w ∉ env i)
    (hnoemit : ∀ i, i ≠ w → Cmd.emit T ∉ env i) (fuel dd : Nat) (i : Nat)
    (hi : i ≠ w) (s2 : EmState) (hP : WF s2 ∧ OnlyAt w T s2) :
    (WF (runCmds (emitGo env fuel dd) (env i) s2).st ∧
     OnlyAt w T (runCmds (emitGo env fuel dd) (env i) s2).st) ∧
    ∀ e ∈ (runCmds (emitGo env fuel dd) (env i) s2).log, e.2 ≠ w :=
  runCmds_inv (emitGo env fuel dd) (fun s => WF s ∧ OnlyAt w T s)
    (fun j => j ≠ w) (fun _ j => j ≠ w) (fun t2 => t2 ≠ T)
    (fun t2 j s3 hne hP3 => ⟨onOp_WF hP3.1 t2 j, onOp_onlyAt hP3.2 hne t2⟩)
    (fun t2 j s3 hP3 => ⟨offOp_WF hP3.1 t2 j, offOp_onlyAt hP3.2 t2 j⟩)
    (fun t2 s3 ht2 hP3 =>
      emitGo_onlyAt_inv env w T hfresh hnoemit fuel dd t2 s3 ht2 hP3)
    (env i) s2
    (cmdOK_of_cmds w _ (env i) (hfresh i)
      (fun t2 hn => by rw [not_ne_iff.mp hn]; exact hnoemit i hi))
    hP

theorem body_pres_absent (env : Nat → List Cmd) (w : Nat)
    (hfresh : ∀ i t2, Cmd.on t2 w ∉ env i) (fuel dd : Nat) (i : Nat)
    (s2 : EmState) (hP : WF s2 ∧ Absent w s2) :
    (WF (runCmds (emitGo env fuel dd) (env i) s2).st ∧
     Absent w (runCmds (emitGo env fuel dd) (env i) s2).st) ∧
    ∀ e ∈ (runCmds (emitGo env fuel dd) (env i) s2).log, e.2 ≠ w :=
  runCmds_absent_inv env w hfresh fuel dd (env i) s2 (hfresh i) hP

/-! Counting helpers over invocation logs. -/

theorem count_ids_zero {w : Nat} {log : List (Nat × Nat)}
    (h : ∀ e ∈ log, e.2 ≠ w) : (ids log).count w = 0 := by
  rw [List.count_eq_zero]
  intro hmem
  rcases List.mem_map.mp hmem with ⟨e, he, heq⟩
  exact h e he heq

theorem count_ids_block {w d : Nat} (A B C : List (Nat × Nat))
    (hA : ∀ e ∈ A, e.2 ≠ w) (hB : ∀ e ∈ B, e.2 ≠ w)
    (hC : ∀ e ∈ C, e.2 ≠ w) :
    (ids (A ++ ((d, w) :: (B ++ C)))).count w = 1 := by
  have hA0 := count_ids_zero hA
  have hB0 := count_ids_zero hB
  have hC0 := count_ids_zero hC
  simp only [ids, List.map_append, List.map_cons] at hA0 hB0 hC0 ⊢
  simp [List.count_append, List.count_cons, hA0, hB0, hC0]

theorem invoke_append (runBody : Nat → EmState → Res) (d : Nat) :
    ∀ (l1 l2 : List Nat) (st : EmState),
      invoke runBody d (l1 ++ l2) st =
        ⟨(invoke runBody d l2 (invoke runBody d l1 st).st).st,
         (invoke runBody d l1 st).log ++
           (invoke runBody d l2 (invoke runBody d l1 st).st).log,
         (invoke runBody d l1 st).caught +
           (invoke runBody d l2 (invoke runBody d l1 st).st).caught⟩ := by
  intro l1
  induction l1 with
  | nil => intro l2 st; simp [invoke]
  | cons i is ih =>
      intro l2 st
      simp [invoke_cons, ih, List.append_assoc, Nat.add_assoc]

/-! The once-listener argument.  A wrapper w registered only under T whose
body starts by unsubscribing w (onceBody), in an environment where nobody
resubscribes w and nobody but w emits T, is invoked exactly once by a
T-emission pass whose snapshot holds it: the listeners before it keep w
confined to T, the wrapper removes itself before its own body runs, and
everything afterwards operates on a w-free registry. -/

theorem invoke_once_count (env : Nat → List Cmd) (w : Nat) (T : String)
    (rest : List Cmd) (henv : env w = onceBody T w rest)
    (hfresh : ∀ i t2, Cmd.on t2 w ∉ env i)
    (hnoemit : ∀ i, i ≠ w → Cmd.emit T ∉ env i)
    (fuel d : Nat) (l1 l2 : List Nat) (hw1 : w ∉ l1) (hw2 : w ∉ l2)
    (st : EmState) (hwf : WF st) (ho : OnlyAt w T st) :
    (ids (invoke (fun i s => runCmds (emitGo env fuel (d + 1)) (env i) s) d
        (l1 ++ w :: l2) st).log).count w = 1 ∧
    WF (invoke (fun i s => runCmds (emitGo env fuel (d + 1)) (env i) s) d
        (l1 ++ w :: l2) st).st ∧
    Absent w (invoke (fun i s => runCmds (emitGo env fuel (d + 1)) (env i) s) d
        (l1 ++ w :: l2) st).st := by
  have h1 := invoke_inv (fun i s => runCmds (emitGo env fuel (d + 1)) (env i) s)
      (fun s => WF s ∧ OnlyAt w T s) (fun j => j ≠ w) d
      (fun i s2 hgi hP2 =>
        body_pres_onlyAt env w T hfresh hnoemit fuel (d + 1) i hgi s2 hP2)
      l1 st (fun i hi hie => hw1 (hie ▸ hi)) ⟨hwf, ho⟩
  rw [invoke_append, invoke_cons]
  have hwbody :
      runCmds (emitGo env fuel (d + 1)) (env w)
          (invoke (fun i s => runCmds (emitGo env fuel (d + 1)) (env i) s)
            d l1 st).st =
        runCmds (emitGo env fuel (d + 1)) rest
          (offOp (invoke (fun i s => runCmds (emitGo env fuel (d + 1)) (env i) s)
            d l1 st).st T w) := by
    rw [henv]
    rfl
  have hs2 : WF (offOp (invoke (fun i s => runCmds (emitGo env fuel (d + 1))
        (env i) s) d l1 st).st T w) ∧
      Absent w (offOp (invoke (fun i s => runCmds (emitGo env fuel (d + 1))
        (env i) s) d l1 st).st T w) :=
    ⟨offOp_WF h1.1.1 T w, offOp_self_absent h1.1.1 h1.1.2⟩
  have hrest : ∀ t2, Cmd.on t2 w ∉ rest := by
    intro t2 hm
    apply hfresh w t2
    rw [henv]
    simp only [onceBody]
    exact List.mem_cons_of_mem _ hm
  have h2 := runCmds_absent_inv env w hfresh fuel (d + 1) rest
      (offOp (invoke (fun i s => runCmds (emitGo env fuel (d + 1)) (env i) s)
        d l1 st).st T w) hrest hs2
  rw [hwbody]
  have h3 := invoke_inv (fun i s => runCmds (emitGo env fuel (d + 1)) (env i) s)
      (fun s => WF s ∧ Absent w s) (fun j => j ≠ w) d
      (fun i s2 _ hP2 => body_pres_absent env w hfresh fuel (d + 1) i s2 hP2)
      l2 (runCmds (emitGo env fuel (d + 1)) rest
        (offOp (invoke (fun i s => runCmds (emitGo env fuel (d + 1)) (env i) s)
          d l1 st).st T w)).st
      (fun i hi hie => hw2 (hie ▸ hi)) h2.1
  dsimp only
  exact ⟨count_ids_block _ _ _ h1.2 h2.2 h3.2, h3.1.1, h3.1.2⟩

theorem emitT_once (env : Nat → List Cmd) (w : Nat) (T : String)
    (rest : List Cmd) (henv : env w = onceBody T w rest)
    (hfresh : ∀ i t2, Cmd.on t2 w ∉ env i)
    (hnoemit : ∀ i, i ≠ w → Cmd.emit T ∉ env i) :
    ∀ (fuel d : Nat) (st : EmState), WF st → OnlyAt w T st →
      (ids (emitGo env fuel d T st).log).count w ≤ 1 ∧
      WF (emitGo env fuel d T st).st ∧
      (Absent w (emitGo env fuel d T st).st ∨
        (OnlyAt w T (emitGo env fuel d T st).st ∧
         (ids (emitGo env fuel d T st).log).count w = 0)) := by
  intro fuel d st hwf ho
  cases fuel with
  | zero =>
      exact ⟨by simp [emitGo, ids], hwf, Or.inr ⟨ho, by simp [emitGo, ids]⟩⟩
  | succ fuel =>
      by_cases hw : w ∈ getTopic st T
      · obtain ⟨l1, l2, hs⟩ := List.append_of_mem hw
        have hnd : (l1 ++ w :: l2).Nodup := hs ▸ hwf T
        rcases List.nodup_append.mp hnd with ⟨nd1, nd2, disj⟩
        have hw1 : w ∉ l1 := fun hmem => disj hmem (List.mem_cons_self w l2)
        have hw2 : w ∉ l2 := (List.nodup_cons.mp nd2).1
        have hmain := invoke_once_count env w T rest henv hfresh hnoemit
          fuel d l1 l2 hw1 hw2 st hwf ho
        rw [emitGo, hs]
        exact ⟨le_of_eq hmain.1, hmain.2.1, Or.inl hmain.2.2⟩
      · have habs : Absent w st := absent_of_onlyAt ho hw
        have h := emitGo_absent_inv env w hfresh (fuel + 1) d T st ⟨hwf, habs⟩
        refine ⟨?_, h.1.1, Or.inl h.1.2⟩
        simp [count_ids_zero h.2]

theorem runTop_cons (env : Nat → List Cmd) (fuel : Nat) (u : String)
    (us : List String) (st : EmState) :
    runTop env fuel (u :: us) st =
      ⟨(runTop env fuel us (emitGo env fuel 0 u st).st).st,
       (emitGo env fuel 0 u st).log ++
         (runTop env fuel us (emitGo env fuel 0 u st).st).log,
       (emitGo env fuel 0 u st).caught +
         (runTop env fuel us (emitGo env fuel 0 u st).st).caught,
       (runTop env fuel us (emitGo env fuel 0 u st).st).err⟩ := rfl

theorem runTop_absent (env : Nat → List Cmd) (w : Nat)
    (hfresh : ∀ i t2, Cmd.on t2 w ∉ env i) (fuel : Nat)
    (topics : List String) (st : EmState) (hP : WF st ∧ Absent w st) :
    (WF (runTop env fuel topics st).st ∧
     Absent w (runTop env fuel topics st).st) ∧
    ∀ e ∈ (runTop env fuel topics st).log, e.2 ≠ w :=
  runCmds_absent_inv env w hfresh fuel 0 (topics.map Cmd.emit) st
    (fun t2 => by simp) hP

theorem runTop_count (env : Nat → List Cmd) (w : Nat) (T : String)
    (rest : List Cmd) (henv : env w = onceBody T w rest)
    (hfresh : ∀ i t2, Cmd.on t2 w ∉ env i)
    (hnoemit : ∀ i, i ≠ w → Cmd.emit T ∉ env i) :
    ∀ (topics : List String) (fuel : Nat) (st : EmState),
      WF st → OnlyAt w T st →
      (ids (runTop env fuel topics st).log).count w ≤ 1 := by
  intro topics
  induction topics with
  | nil => intro fuel st hwf ho; simp [runTop, runCmds, ids]
  | cons u us ih =>
      intro fuel st hwf ho
      rw [runTop_cons]
      dsimp only
      have hsplit : ∀ (A B : List (Nat × Nat)),
          (ids (A ++ B)).count w = (ids A).count w + (ids B).count w := by
        intro A B
        simp [ids, List.count_append]
      rw [hsplit]
      by_cases hu : u = T
      · rw [hu]
        have hstep := emitT_once env w T rest henv hfresh hnoemit fuel 0 st
          hwf ho
        rcases hstep.2.2 with habs | ⟨ho2, hz⟩
        · have h2 := runTop_absent env w hfresh fuel us
            (emitGo env fuel 0 T st).st ⟨hstep.2.1, habs⟩
          have hz2 := count_ids_zero h2.2
          have h1 := hstep.1
          omega
        · have h2 := ih fuel (emitGo env fuel 0 T st).st hstep.2.1 ho2
          omega
      · have h := emitGo_onlyAt_inv env w T hfresh hnoemit fuel 0 u st hu
          ⟨hwf, ho⟩
        have hz := count_ids_zero h.2
        have h2 := ih fuel (emitGo env fuel 0 u st).st h.1.1 h.1.2
        omega

end Bus

/-- Listener environment of the overlap counterexample: listener 0
unsubscribes itself and emits "t" again; listener 1 is the subscribe-once
wrapper (registered via once, so its body removes it before running) with
an inert inner body. -/
def envOverlap : Nat → List Bus.Cmd := fun i =>
  if i = 0 then [Bus.Cmd.off "t" 0, Bus.Cmd.emit "t"]
  else if i = 1 then Bus.onceBody "t" 1 [Bus.Cmd.nop] else []

/-- C3, counterexample.  Listener 1 is a subscribe-once wrapper on topic
"t".  With listeners 0 and 1 registered, a single emission of "t" invokes
listener 0, which unsubscribes itself and emits "t" again; the overlapping
inner emission invokes the once wrapper (removing it), and then the outer
pass, iterating its own snapshot, invokes the wrapper a second time: the
wrapper runs twice in total, contradicting the claim that a subscribe-once
listener is invoked at most once over emissions that overlap. -/
theorem once_reinvoked_by_overlap :
    envOverlap 1 = Bus.onceBody "t" 1 [Bus.Cmd.nop] ∧
    (Bus.ids (Bus.emitGo envOverlap 3 0 "t" [("t", [0, 1])]).log).count 1
      = 2 := by
  exact ⟨rfl, by decide⟩

/-- C3, amended.  A subscribe-once listener w on topic T (its wrapper body
removes w first, then runs the inner body, as Emitter.once builds it) is
invoked at most once in total over any sequence of top-level emissions,
provided no other listener emits on T during emission (overlapping
emissions of T are what the counterexample exploits) and no listener
re-registers w; the inner body of w may itself emit T: because the removal
happens before the body executes, w cannot re-trigger itself. -/
theorem once_listener_at_most_once (env : Nat → List Bus.Cmd) (w : Nat)
    (T : String) (rest : List Bus.Cmd) (topics : List String) (fuel : Nat)
    (st : Bus.EmState) (hwf : Bus.WF st)
    (honce : env w = Bus.onceBody T w rest)
    (hfresh : ∀ i t2, Bus.Cmd.on t2 w ∉ env i)
    (hnoemit : ∀ i, i ≠ w → Bus.Cmd.emit T ∉ env i)
    (honly : Bus.OnlyAt w T st) :
    (Bus.ids (Bus.runTop env fuel topics st).log).count w ≤ 1 :=
  Bus.runTop_count env w T rest honce hfresh hnoemit topics fuel st hwf honly

/-- Listener environment of the witness: listener 1 is a subscribe-once
wrapper on "t" whose inner body is empty; nobody else exists. -/
def envOnceW : Nat → List Bus.Cmd := fun i =>
  if i = 1 then Bus.onceBody "t" 1 [] else []

/-- Witness for the amended C3 theorem: emitting "t" twice invokes the
once wrapper at most once. -/
theorem once_listener_at_most_once_witness :
    (Bus.ids (Bus.runTop envOnceW 5 ["t", "t"] [("t", [1])]).log).count 1
      ≤ 1 :=
  once_listener_at_most_once envOnceW 1 "t" [] ["t", "t"] 5 [("t", [1])]
    (by intro u; rw [Bus.getTopic]; split <;> simp [Bus.getTopic])
    (by simp [envOnceW])
    (by
      intro i t2
      by_cases h : i = 1 <;> simp [envOnceW, h, Bus.onceBody])
    (by
      intro i hi
      simp [envOnceW, hi])
    (by
      intro u hu
      simp [Bus.getTopic, Ne.symm hu])

/-- C2.  For every environment of listener behaviours, every topic and any
well-formed registry, an emission with nonzero fuel directly invokes
exactly the snapshot of the topic taken at emission start: the depth-d
invocation list equals the registered listener list (so each listener
present at the snapshot is invoked exactly once, in registration order),
the snapshot has no duplicates, a listener not registered at the start
(for example one added during the emission) is never directly invoked,
and a listener present at the start is invoked even if it is removed
during the emission. -/
theorem emit_snapshot_spec (env : Nat → List Bus.Cmd) (fuel d : Nat)
    (t : String) (st : Bus.EmState) (hwf : Bus.WF st) :
    Bus.directs d (Bus.emitGo env (fuel + 1) d t st).log = Bus.getTopic st t ∧
    (Bus.directs d (Bus.emitGo env (fuel + 1) d t st).log).Nodup ∧
    (∀ j, j ∉ Bus.getTopic st t →
      j ∉ Bus.directs d (Bus.emitGo env (fuel + 1) d t st).log) ∧
    (∀ j, j ∈ Bus.getTopic st t →
      j ∈ Bus.directs d (Bus.emitGo env (fuel + 1) d t st).log) := by
  have hd := Bus.emitGo_directs env fuel d t st
  exact ⟨hd, hd ▸ hwf t, fun j hj => hd ▸ hj, fun j hj => hd ▸ hj⟩

/-- Witness for C2: with two registered listeners and inert bodies, the
direct invocation list of an emission is the snapshot, in order. -/
theorem emit_snapshot_spec_witness :
    Bus.directs 0 (Bus.emitGo (fun _ => []) 1 0 "t" [("t", [0, 1])]).log
      = [0, 1] :=
  (emit_snapshot_spec (fun _ => []) 0 0 "t" [("t", [0, 1])]
    (by intro u; rw [Bus.getTopic]; split <;> simp [Bus.getTopic])).1

/-- C8.  If a registered listener of the topic has a throwing body, the
emission still directly invokes the whole snapshot (in particular every
listener after the faulty one, each recorded at depth d in the log), the
error is caught and counted by the emission loop, and an emit command
never reports an error to the body that ran it. -/
theorem emit_fault_isolated (env : Nat → List Bus.Cmd) (fuel d : Nat)
    (t : String) (st : Bus.EmState) (j : Nat)
    (hj : j ∈ Bus.getTopic st t) (hfault : Bus.Cmd.fault ∈ env j) :
    Bus.directs d (Bus.emitGo env (fuel + 1) d t st).log = Bus.getTopic st t ∧
    (∀ k, k ∈ Bus.getTopic st t →
      (d, k) ∈ (Bus.emitGo env (fuel + 1) d t st).log) ∧
    1 ≤ (Bus.emitGo env (fuel + 1) d t st).caught ∧
    (Bus.runCmds (Bus.emitGo env (fuel + 1) 0) [Bus.Cmd.emit t] st).err
      = false := by
  have hd := Bus.emitGo_directs env fuel d t st
  refine ⟨hd, ?_, ?_, rfl⟩
  · intro k hk
    rw [← hd] at hk
    rcases List.mem_map.mp hk with ⟨e, he, hk2⟩
    rcases List.mem_filter.mp he with ⟨hmem, hdec⟩
    obtain ⟨e1, e2⟩ := e
    have h1 : e1 = d := by simpa using hdec
    have h2 : e2 = k := hk2
    subst h1
    subst h2
    exact hmem
  · rw [Bus.emitGo]
    exact Bus.invoke_caught_pos _ d j
      (fun s => Bus.runCmds_fault_err _ (env j) s hfault)
      (Bus.getTopic st t) st hj

/-- Witness for C8: listener 0 throws, listener 1 follows it in the
snapshot and is still invoked, and the error is caught and counted. -/
theorem emit_fault_isolated_witness :
    (0, 1) ∈ (Bus.emitGo (fun i => if i = 0 then [Bus.Cmd.fault] else [])
      1 0 "t" [("t", [0, 1])]).log ∧
    1 ≤ (Bus.emitGo (fun i => if i = 0 then [Bus.Cmd.fault] else [])
      1 0 "t" [("t", [0, 1])]).caught :=
  ⟨(emit_fault_isolated (fun i => if i = 0 then [Bus.Cmd.fault] else [])
      0 0 "t" [("t", [0, 1])] 0 (by decide) (by decide)).2.1 1 (by decide),
   (emit_fault_isolated (fun i => if i = 0 then [Bus.Cmd.fault] else [])
      0 0 "t" [("t", [0, 1])] 0 (by decide) (by decide)).2.2.1⟩

